import Mathlib

/-!
Shallow embedding of `src/server.js` (Asterian multiplayer relay server,
Node.js + ws).  The embedding models the connection lifecycle, the message
router with its per-type handlers, the broadcast engine and the heartbeat
monitor as a transition system over an explicit server state.

Modelling conventions:
* A websocket handle (`ws`) is an abstract connection id (`Nat`).
* The `players` Map (ws → playerData) becomes an association list with the
  Map's first-occurrence lookup / in-place set / delete semantics.
* The per-connection closure variables `joined` / `pData` are merged into a
  single `Option PlayerData`: in the source both are assigned together in the
  join handler and never reset, so `joined === (pData !== null)` at all times.
* JS values appearing in message fields are modelled by `JsVal`
  (numbers as `Int`; numeric-literal strings and object/array coercions of
  `Number(...)` are not modelled — no claim depends on them).  An absent
  field (`undefined`) is `Option.none`.
* `Math.random().toString(36).slice(2, 10)` in `genId` is modelled by an
  environment-supplied stream of strings `idStream : Nat → String` consumed
  at index `idCount`.
* `Date.now()` is an explicit timestamp carried by the events that read it.
* A handler expression that throws in JS (calling `.slice` on a truthy
  non-string, which escapes the `ws` listener and crashes the process) is
  modelled by the step function returning `none`.
-/

namespace AsterianServer

/-- Abstract websocket connection handle. -/
abbrev ConnId := Nat

/-- JS runtime values occurring in decoded message fields. -/
inductive JsVal where
  | num (n : Int)
  | str (s : String)
  | bool (b : Bool)
  | nullv
deriving DecidableEq, Repr

/-- JS truthiness for the modelled values. -/
def truthy : JsVal → Bool
  | .num n => decide (n ≠ 0)
  | .str s => decide (s ≠ "")
  | .bool b => b
  | .nullv => false

/-- `Number(v)` for the modelled values; `none` is NaN.  (Numeric-literal
strings are not modelled: every non-empty string coerces to NaN here.) -/
def toNumber : JsVal → Option Int
  | .num n => some n
  | .str s => if s = "" then some 0 else none
  | .bool b => some (if b then 1 else 0)
  | .nullv => some 0

/-- `Number(field) || d`: NaN (including an absent field) and `0` both fall
back to the default `d`. -/
def numOr (v : Option JsVal) (d : Int) : Int :=
  match v with
  | none => d
  | some w =>
    match toNumber w with
    | none => d
    | some n => if n = 0 then d else n

/-- `field || d` for a JS-value default. -/
def jsOr (v : Option JsVal) (d : JsVal) : JsVal :=
  match v with
  | none => d
  | some w => if truthy w then w else d

/-- `!!field`. -/
def truthyOpt (v : Option JsVal) : Bool :=
  match v with
  | none => false
  | some w => truthy w

/-- `(field || d)` followed by a string method call: yields the string, or
`none` when the value is truthy but not a string (JS throws `TypeError`). -/
def strOrDefault (v : Option JsVal) (d : String) : Option String :=
  match v with
  | none => some d
  | some w =>
    if truthy w then
      match w with
      | .str s => some s
      | _ => none
    else some d

/-- The apostrophe character (U+0027). -/
def squote : Char := Char.ofNat 39

/-- Character denylist of the join handler's name sanitizer: `/[<>&"']/g`. -/
def nameBad : List Char := ['<', '>', '&', '"', squote]

/-- Character denylist of the chat handler's text sanitizer: `/[<>&]/g`. -/
def chatBad : List Char := ['<', '>', '&']

/-- `name.slice(0, 16).replace(/[<>&"']/g, '')` (server.js line 68). -/
def sanitizeName (s : String) : String :=
  String.mk ((s.data.take 16).filter (fun c => !(nameBad.contains c)))

/-- `text.slice(0, 200).replace(/[<>&]/g, '')` (server.js line 113). -/
def sanitizeChat (s : String) : String :=
  String.mk ((s.data.take 200).filter (fun c => !(chatBad.contains c)))

/-- `MAX_PLAYERS` (server.js line 8). -/
def MAX_PLAYERS : Nat := 20

/-- `HEARTBEAT_INTERVAL` (server.js line 9), milliseconds. -/
def HEARTBEAT_INTERVAL : Int := 15000

/-- `HEARTBEAT_TIMEOUT` (server.js line 10), milliseconds. -/
def HEARTBEAT_TIMEOUT : Int := 30000

/-- Equipment mapping, relayed wholesale and never inspected by the server;
modelled as a slot → descriptor association list. -/
abbrev Equip := List (String × String)

/-- The `stats` record stored per session (server.js lines 74 and 128–134).
`combatStyle` and `area` are stored as the raw JS value of the message
(`msg.combatStyle || 'nano'`), so they are `JsVal` here. -/
structure Stats where
  level : Int
  combatStyle : JsVal
  hp : Int
  maxHp : Int
  area : JsVal
deriving DecidableEq, Repr

/-- Initial stats assigned at join (server.js line 74). -/
def initialStats : Stats :=
  { level := 1, combatStyle := .str "nano", hp := 100, maxHp := 100,
    area := .str "station-hub" }

/-- The `pData` object created by the join handler (server.js lines 69–76). -/
structure PlayerData where
  id : String
  name : String
  x : Int
  z : Int
  ry : Int
  moving : Bool
  equipment : Equip
  stats : Stats
  lastPing : Int
deriving DecidableEq, Repr

/-- Per-connection state: the closure variable `pData` (with `joined`
identified with `pData.isSome`, see the header comment) and the socket's
`readyState` (1 = OPEN, 3 = CLOSED). -/
structure ConnState where
  pData : Option PlayerData
  readyState : Nat
deriving DecidableEq, Repr

/-- Entry of a player roster in a `welcome` message (server.js lines 84–88). -/
structure PlayerView where
  id : String
  name : String
  x : Int
  z : Int
  ry : Int
  moving : Bool
  equipment : Equip
  stats : Stats
deriving DecidableEq, Repr

/-- Outbound frames the server can send. -/
inductive ServerMsg where
  | error (msg : String)
  | welcome (id : String) (players : List PlayerView)
  | joinB (id : String) (name : String)   -- the broadcast {type:'join', id, name}
  | move (id : String) (x z ry : Int) (moving : Bool)
  | chat (id name text : String)
  | equip (id : String) (equipment : Equip)
  | stats (id : String) (st : Stats)
  | attack (id name : String) (enemyId : Option JsVal) (damage : Int)
      (style : JsVal) (x z : Int)
  | enemyKill (id name : String) (enemyId : Option JsVal)
  | groundDrop (id name : String) (x z : Int) (itemId : String) (quantity : Int)
  | leave (id : String)
  | ping
deriving DecidableEq, Repr

/-- A decoded inbound frame: the `type` discriminator plus every field any
handler reads.  An absent JSON field is `none` (JS `undefined`). -/
structure RawMsg where
  type : String
  name : Option JsVal := none
  x : Option JsVal := none
  z : Option JsVal := none
  ry : Option JsVal := none
  moving : Option JsVal := none
  text : Option JsVal := none
  equipment : Option Equip := none
  level : Option JsVal := none
  hp : Option JsVal := none
  maxHp : Option JsVal := none
  combatStyle : Option JsVal := none
  area : Option JsVal := none
  enemyId : Option JsVal := none
  damage : Option JsVal := none
  style : Option JsVal := none
  itemId : Option JsVal := none
  quantity : Option JsVal := none
deriving DecidableEq, Repr

/-- First-occurrence lookup of a JS `Map` modelled as an association list. -/
def mapLookup {α : Type} : List (ConnId × α) → ConnId → Option α
  | [], _ => none
  | e :: t, c => if e.1 = c then some e.2 else mapLookup t c

/-- `Map.set`: replace the entry in place, or append a new one. -/
def mapSet {α : Type} : List (ConnId × α) → ConnId → α → List (ConnId × α)
  | [], c, v => [(c, v)]
  | e :: t, c, v => if e.1 = c then (c, v) :: t else e :: mapSet t c v

/-- `Map.delete`: remove the entry with the given key. -/
def mapDelete {α : Type} : List (ConnId × α) → ConnId → List (ConnId × α)
  | [], _ => []
  | e :: t, c => if e.1 = c then t else e :: mapDelete t c

/-- Mutation of the object stored under a key (JS mutates through the shared
reference, leaving the key in place). -/
def mapUpdate {α : Type} : List (ConnId × α) → ConnId → (α → α) → List (ConnId × α)
  | [], _, _ => []
  | e :: t, c, f => if e.1 = c then (c, f e.2) :: t else e :: mapUpdate t c f

/-- The whole server state: the `players` registry, the per-connection
closure/socket states, and the environment's id stream for `genId`. -/
structure ServerState where
  players : List (ConnId × PlayerData)
  conns : List (ConnId × ConnState)
  idStream : Nat → String
  idCount : Nat

/-- `ws.readyState` as seen through the registry (an unknown handle reads as
closed; registered handles always have a connection entry). -/
def readyStateOf (s : ServerState) (c : ConnId) : Nat :=
  match mapLookup s.conns c with
  | none => 3
  | some cs => cs.readyState

/-- `broadcast(data, exclude)` (server.js lines 37–44): one frame to every
registry entry that is not the excluded handle and whose socket is open,
in registry order.  `exclude = none` models the one-argument call. -/
def broadcastOuts (s : ServerState) (msg : ServerMsg) (exclude : Option ConnId) :
    List (ConnId × ServerMsg) :=
  s.players.filterMap (fun e =>
    if exclude ≠ some e.1 ∧ readyStateOf s e.1 = 1 then some (e.1, msg) else none)

/-- `sendTo(ws, data)` (server.js lines 46–50). -/
def sendToOut (s : ServerState) (c : ConnId) (msg : ServerMsg) :
    List (ConnId × ServerMsg) :=
  if readyStateOf s c = 1 then [(c, msg)] else []

/-- Update the session object of connection `c` through its shared reference:
the registry entry (if present) and the closure's `pData` are the same JS
object, so both views change. -/
def updatePData (s : ServerState) (c : ConnId) (f : PlayerData → PlayerData) :
    ServerState :=
  { s with
    players := mapUpdate s.players c f,
    conns := mapUpdate s.conns c (fun k => { k with pData := k.pData.map f }) }

/-- Roster projection used by the `welcome` message (server.js lines 84–88). -/
def playerView (p : PlayerData) : PlayerView :=
  { id := p.id, name := p.name, x := p.x, z := p.z, ry := p.ry,
    moving := p.moving, equipment := p.equipment, stats := p.stats }

/-- The `pData` object built by the join handler (server.js lines 69–76). -/
def joinPData (s : ServerState) (rawName : String) (now : Int) : PlayerData :=
  { id := s.idStream s.idCount, name := sanitizeName rawName,
    x := 0, z := 0, ry := 0, moving := false,
    equipment := [], stats := initialStats, lastPing := now }

/-- The join handler body after `(msg.name || 'Player')` has produced the raw
name string (server.js lines 67–98): create and register the session, set the
closure's `pData`, send `welcome` with the roster of everyone else, broadcast
`join` to the others. -/
def doJoin (s : ServerState) (c : ConnId) (rawName : String) (now : Int) :
    ServerState × List (ConnId × ServerMsg) :=
  let name := sanitizeName rawName
  let pid := s.idStream s.idCount
  let pd : PlayerData := joinPData s rawName now
  let s1 : ServerState :=
    { s with
      players := mapSet s.players c pd,
      conns := mapUpdate s.conns c (fun k => { k with pData := some pd }),
      idCount := s.idCount + 1 }
  let existing := (s1.players.filter (fun e => decide (e.1 ≠ c))).map
    (fun e => playerView e.2)
  (s1, sendToOut s1 c (.welcome pid existing) ++
       broadcastOuts s1 (.joinB pid name) (some c))

/-- `move` handler (server.js lines 103–109). -/
def doMove (s : ServerState) (c : ConnId) (p : PlayerData) (m : RawMsg) :
    ServerState × List (ConnId × ServerMsg) :=
  let nx := numOr m.x 0
  let nz := numOr m.z 0
  let nry := numOr m.ry 0
  let mv := truthyOpt m.moving
  let s1 := updatePData s c (fun q => { q with x := nx, z := nz, ry := nry, moving := mv })
  (s1, broadcastOuts s1 (.move p.id nx nz nry mv) (some c))

/-- `chat` handler body after `(msg.text || '')` has produced the raw text
(server.js lines 112–118); the broadcast has no exclusion. -/
def doChat (s : ServerState) (c : ConnId) (p : PlayerData) (rawText : String) :
    ServerState × List (ConnId × ServerMsg) :=
  let text := sanitizeChat rawText
  if 0 < text.length then
    (s, broadcastOuts s (.chat p.id p.name text) none)
  else (s, [])

/-- `equip` handler (server.js lines 121–124). -/
def doEquip (s : ServerState) (c : ConnId) (p : PlayerData) (m : RawMsg) :
    ServerState × List (ConnId × ServerMsg) :=
  let eqp := m.equipment.getD []
  let s1 := updatePData s c (fun q => { q with equipment := eqp })
  (s1, broadcastOuts s1 (.equip p.id eqp) (some c))

/-- `stats` handler (server.js lines 127–136). -/
def doStats (s : ServerState) (c : ConnId) (p : PlayerData) (m : RawMsg) :
    ServerState × List (ConnId × ServerMsg) :=
  let st : Stats :=
    { level := numOr m.level 1,
      combatStyle := jsOr m.combatStyle (.str "nano"),
      hp := numOr m.hp 100,
      maxHp := numOr m.maxHp 100,
      area := jsOr m.area (.str "station-hub") }
  let s1 := updatePData s c (fun q => { q with stats := st })
  (s1, broadcastOuts s1 (.stats p.id st) (some c))

/-- `attack` handler (server.js lines 139–146): stateless relay. -/
def doAttack (s : ServerState) (c : ConnId) (p : PlayerData) (m : RawMsg) :
    ServerState × List (ConnId × ServerMsg) :=
  (s, broadcastOuts s
    (.attack p.id p.name m.enemyId (numOr m.damage 0) (jsOr m.style (.str "nano"))
      (numOr m.x 0) (numOr m.z 0)) (some c))

/-- `enemyKill` handler (server.js lines 149–154): stateless relay. -/
def doEnemyKill (s : ServerState) (c : ConnId) (p : PlayerData) (m : RawMsg) :
    ServerState × List (ConnId × ServerMsg) :=
  (s, broadcastOuts s (.enemyKill p.id p.name m.enemyId) (some c))

/-- `groundDrop` handler body after `(msg.itemId || '')` has produced the raw
item id (server.js lines 157–164): stateless relay with the quantity clamp
`Math.min(Number(msg.quantity) || 1, 1000)`. -/
def doGroundDrop (s : ServerState) (c : ConnId) (p : PlayerData) (m : RawMsg)
    (rawItem : String) : ServerState × List (ConnId × ServerMsg) :=
  (s, broadcastOuts s
    (.groundDrop p.id p.name (numOr m.x 0) (numOr m.z 0)
      (String.mk (rawItem.data.take 64))
      (min (numOr m.quantity 1) 1000)) (some c))

/-- `pong` handler (server.js lines 167–169). -/
def doPong (s : ServerState) (c : ConnId) (now : Int) :
    ServerState × List (ConnId × ServerMsg) :=
  (updatePData s c (fun q => { q with lastPing := now }), [])

/-- The message listener (server.js lines 62–170) for an already-decoded
frame.  `none` models a JS `TypeError` escaping the listener (string method
called on a truthy non-string field). -/
def handleMessage (s : ServerState) (c : ConnId) (cs : ConnState) (m : RawMsg)
    (now : Int) : Option (ServerState × List (ConnId × ServerMsg)) :=
  match cs.pData with
  | none =>
    -- still Pending: only `join` does anything (lines 67 and 100)
    if m.type = "join" then
      (strOrDefault m.name "Player").map (fun rawName => doJoin s c rawName now)
    else some (s, [])
  | some p =>
    -- Joined: a second `join` falls through every branch (lines 67, 103–169)
    if m.type = "join" then some (s, [])
    else if m.type = "move" then some (doMove s c p m)
    else if m.type = "chat" then
      (strOrDefault m.text "").map (fun rawText => doChat s c p rawText)
    else if m.type = "equip" then some (doEquip s c p m)
    else if m.type = "stats" then some (doStats s c p m)
    else if m.type = "attack" then some (doAttack s c p m)
    else if m.type = "enemyKill" then some (doEnemyKill s c p m)
    else if m.type = "groundDrop" then
      (strOrDefault m.itemId "").map (fun rawItem => doGroundDrop s c p m rawItem)
    else if m.type = "pong" then some (doPong s c now)
    else some (s, [])

/-- The connection handler (server.js lines 52–60): when the registry is
already full, send `error` and close without registering any listeners (the
handler returns before `ws.on(...)`); otherwise register the connection in
Pending state.  Connection handles are fresh; a reused handle is ignored. -/
def handleConnect (s : ServerState) (c : ConnId) :
    ServerState × List (ConnId × ServerMsg) :=
  if (mapLookup s.conns c).isSome then (s, [])
  else if MAX_PLAYERS ≤ s.players.length then
    (s, [(c, .error "Server full")])
  else
    ({ s with conns := s.conns ++ [(c, { pData := none, readyState := 1 })] }, [])

/-- The `close` listener (server.js lines 172–178).  When the event fires the
socket is already closed (`readyState` 3); if the closure's `pData` is set the
handler broadcasts `leave` (over the registry, no exclusion) and then deletes
the entry.  A connection that was rejected at accept time has no listeners, so
the event does nothing. -/
def handleClose (s : ServerState) (c : ConnId) :
    ServerState × List (ConnId × ServerMsg) :=
  match mapLookup s.conns c with
  | none => (s, [])
  | some cs =>
    let s0 : ServerState :=
      { s with conns := mapUpdate s.conns c (fun k => { k with readyState := 3 }) }
    match cs.pData with
    | some p =>
      ({ s0 with players := mapDelete s0.players c },
       broadcastOuts s0 (.leave p.id) none)
    | none => ({ s0 with players := mapDelete s0.players c }, [])

/-- The `error` listener (server.js lines 180–182): delete only. -/
def handleError (s : ServerState) (c : ConnId) :
    ServerState × List (ConnId × ServerMsg) :=
  match mapLookup s.conns c with
  | none => (s, [])
  | some _ => ({ s with players := mapDelete s.players c }, [])

/-- Body of the heartbeat loop for one registry entry (server.js lines
188–196): a timed-out session is terminated (`readyState` 3, `close` fires
later as its own event) and deleted; otherwise `ping` is sent if the socket is
open. -/
def tickBody (now : Int) (acc : ServerState × List (ConnId × ServerMsg))
    (e : ConnId × PlayerData) : ServerState × List (ConnId × ServerMsg) :=
  let st := acc.1
  if HEARTBEAT_TIMEOUT < now - e.2.lastPing then
    ({ st with
        players := mapDelete st.players e.1,
        conns := mapUpdate st.conns e.1 (fun k => { k with readyState := 3 }) },
     acc.2)
  else
    (st, acc.2 ++ sendToOut st e.1 .ping)

/-- One heartbeat tick (server.js lines 186–197).  The JS `for...of` over the
live Map deletes only the entry being visited, so it visits exactly the
entries present when the tick started. -/
def stepTick (s : ServerState) (now : Int) :
    ServerState × List (ConnId × ServerMsg) :=
  s.players.foldl (tickBody now) (s, [])

/-- External events driving the server. -/
inductive Event where
  | connect (c : ConnId)
  | message (c : ConnId) (m : RawMsg) (now : Int)
  | badFrame (c : ConnId)          -- a frame `JSON.parse` rejects (line 64)
  | closeEv (c : ConnId)
  | errorEv (c : ConnId)
  | tick (now : Int)

/-- One step of the server; `none` is a crash of the process (an exception
escaping a handler). -/
def step (s : ServerState) (e : Event) :
    Option (ServerState × List (ConnId × ServerMsg)) :=
  match e with
  | .connect c => some (handleConnect s c)
  | .message c m now =>
    match mapLookup s.conns c with
    | none => some (s, [])      -- no listeners registered for this handle
    | some cs => handleMessage s c cs m now
  | .badFrame _ => some (s, []) -- `try { JSON.parse } catch { return }`
  | .closeEv c => some (handleClose s c)
  | .errorEv c => some (handleError s c)
  | .tick now => some (stepTick s now)

/-- Run a list of events, accumulating every frame sent. -/
def runAcc : ServerState → List Event → Option (ServerState × List (ConnId × ServerMsg))
  | s, [] => some (s, [])
  | s, e :: es =>
    match step s e with
    | none => none
    | some (s1, o1) =>
      match runAcc s1 es with
      | none => none
      | some (s2, o2) => some (s2, o1 ++ o2)

/-- Run a list of events, keeping the final state. -/
def run (s : ServerState) (es : List Event) : Option ServerState :=
  (runAcc s es).map Prod.fst

/-- The state at process start: empty registry, no connections. -/
def initState (f : Nat → String) : ServerState :=
  { players := [], conns := [], idStream := f, idCount := 0 }

/-! ### Basic lemmas about the association-list Map operations -/

theorem mapLookup_eq_none {α : Type} {m : List (ConnId × α)} {c : ConnId}
    (h : mapLookup m c = none) : ∀ e ∈ m, e.1 ≠ c := by
  induction m with
  | nil => intro e he; cases he
  | cons e t ih =>
    intro e' he'
    by_cases hc : e.1 = c
    · simp [mapLookup, hc] at h
    · rcases List.mem_cons.mp he' with rfl | ht
      · exact hc
      · exact ih (by simpa [mapLookup, hc] using h) e' ht

theorem mapLookup_mem {α : Type} {m : List (ConnId × α)} {c : ConnId} {v : α}
    (h : mapLookup m c = some v) : (c, v) ∈ m := by
  induction m with
  | nil => cases h
  | cons e t ih =>
    obtain ⟨a, b⟩ := e
    by_cases hc : a = c
    · subst hc
      simp only [mapLookup, if_pos] at h
      cases h
      exact List.mem_cons_self _ _
    · simp only [mapLookup, hc, if_neg, not_false_iff] at h
      exact List.mem_cons_of_mem _ (ih h)

theorem mapSet_lookup_self {α : Type} (m : List (ConnId × α)) (c : ConnId) (v : α) :
    mapLookup (mapSet m c v) c = some v := by
  induction m with
  | nil => simp [mapSet, mapLookup]
  | cons e t ih =>
    by_cases hc : e.1 = c
    · simp [mapSet, hc, mapLookup]
    · simp [mapSet, hc, mapLookup, ih]

theorem mapSet_of_fresh {α : Type} {m : List (ConnId × α)} {c : ConnId} (v : α)
    (h : ∀ e ∈ m, e.1 ≠ c) : mapSet m c v = m ++ [(c, v)] := by
  induction m with
  | nil => rfl
  | cons e t ih =>
    have he : e.1 ≠ c := h e (by simp)
    simp only [mapSet, he, if_neg, not_false_iff, List.cons_append]
    rw [ih (fun e' he' => h e' (List.mem_cons_of_mem _ he'))]

theorem mapUpdate_lookup_ne {α : Type} (m : List (ConnId × α)) (c x : ConnId)
    (f : α → α) (h : x ≠ c) : mapLookup (mapUpdate m c f) x = mapLookup m x := by
  induction m with
  | nil => rfl
  | cons e t ih =>
    by_cases hc : e.1 = c
    · subst hc
      simp [mapUpdate, mapLookup, (by exact fun hx => h hx.symm : ¬ e.1 = x), h.symm]
    · by_cases hx : e.1 = x
      · simp [mapUpdate, hc, mapLookup, hx, h]
      · simp [mapUpdate, hc, mapLookup, hx, ih]

theorem mapUpdate_lookup_self {α : Type} (m : List (ConnId × α)) (c : ConnId)
    (f : α → α) : mapLookup (mapUpdate m c f) c = (mapLookup m c).map f := by
  induction m with
  | nil => rfl
  | cons e t ih =>
    by_cases hc : e.1 = c
    · simp [mapUpdate, hc, mapLookup]
    · simp [mapUpdate, hc, mapLookup, ih]

theorem mapDelete_sublist {α : Type} (m : List (ConnId × α)) (c : ConnId) :
    (mapDelete m c).Sublist m := by
  induction m with
  | nil => simp [mapDelete]
  | cons e t ih =>
    by_cases hc : e.1 = c
    · simpa [mapDelete, hc] using List.sublist_cons_self e t
    · simpa [mapDelete, hc] using List.Sublist.cons₂ e ih

theorem mapDelete_of_fresh {α : Type} {m : List (ConnId × α)} {c : ConnId}
    (h : ∀ e ∈ m, e.1 ≠ c) : mapDelete m c = m := by
  induction m with
  | nil => rfl
  | cons e t ih =>
    have he : e.1 ≠ c := h e (by simp)
    simp only [mapDelete, he, if_neg, not_false_iff]
    rw [ih (fun e' he' => h e' (List.mem_cons_of_mem _ he'))]

theorem mapDelete_middle {α : Type} (l1 l2 : List (ConnId × α)) (c : ConnId) (v : α)
    (h : ∀ e ∈ l1, e.1 ≠ c) : mapDelete (l1 ++ (c, v) :: l2) c = l1 ++ l2 := by
  induction l1 with
  | nil => simp [mapDelete]
  | cons e t ih =>
    have he : e.1 ≠ c := h e (by simp)
    have hstep : mapDelete ((e :: t) ++ (c, v) :: l2) c
        = e :: mapDelete (t ++ (c, v) :: l2) c := by
      simp [mapDelete, he]
    rw [hstep, ih (fun e' he' => h e' (List.mem_cons_of_mem _ he')), List.cons_append]

theorem mapUpdate_keys {α : Type} (m : List (ConnId × α)) (c : ConnId) (f : α → α) :
    (mapUpdate m c f).map Prod.fst = m.map Prod.fst := by
  induction m with
  | nil => rfl
  | cons e t ih =>
    by_cases hc : e.1 = c
    · simp [mapUpdate, hc]
    · simp [mapUpdate, hc, ih]

theorem mem_mapSet {α : Type} {m : List (ConnId × α)} {c : ConnId} {v : α}
    {e : ConnId × α} (h : e ∈ mapSet m c v) : e ∈ m ∨ e = (c, v) := by
  induction m with
  | nil => simpa [mapSet] using h
  | cons e' t ih =>
    by_cases hc : e'.1 = c
    · simp only [mapSet, hc, if_pos] at h
      rcases List.mem_cons.mp h with rfl | ht
      · right; rfl
      · left; exact List.mem_cons_of_mem _ ht
    · simp only [mapSet, hc, if_neg, not_false_iff] at h
      rcases List.mem_cons.mp h with rfl | ht
      · left; simp
      · rcases ih ht with hm | rfl
        · left; exact List.mem_cons_of_mem _ hm
        · right; rfl

/-! ### Broadcast lemmas -/

theorem mem_broadcastOuts {s : ServerState} {msg : ServerMsg} {ex : Option ConnId}
    {o : ConnId × ServerMsg} (h : o ∈ broadcastOuts s msg ex) :
    o.2 = msg ∧ ex ≠ some o.1 ∧ readyStateOf s o.1 = 1 ∧ ∃ pd, (o.1, pd) ∈ s.players := by
  simp only [broadcastOuts] at h
  rcases List.mem_filterMap.mp h with ⟨e, he, hf⟩
  by_cases hcond : ex ≠ some e.1 ∧ readyStateOf s e.1 = 1
  · rw [if_pos hcond] at hf
    cases hf
    exact ⟨rfl, hcond.1, hcond.2, e.2, by simpa using he⟩
  · rw [if_neg hcond] at hf
    cases hf

theorem broadcastOuts_mem_intro {s : ServerState} {msg : ServerMsg}
    {ex : Option ConnId} {r : ConnId} {pr : PlayerData}
    (hmem : (r, pr) ∈ s.players) (hopen : readyStateOf s r = 1)
    (hex : ex ≠ some r) : (r, msg) ∈ broadcastOuts s msg ex :=
  List.mem_filterMap.mpr ⟨(r, pr), hmem, by simp [hex, hopen]⟩

theorem broadcastOuts_excludes {s : ServerState} {msg : ServerMsg} {c : ConnId}
    {o : ConnId × ServerMsg} (h : o ∈ broadcastOuts s msg (some c)) : o.1 ≠ c := by
  have := (mem_broadcastOuts h).2.1
  exact fun hc => this (by rw [hc])

/-! ### Sanitizer lemmas (for C6) -/

theorem sanitize_core_idem (bad : List Char) (n : Nat) (l : List Char) :
    (((l.take n).filter (fun c => !(bad.contains c))).take n).filter
        (fun c => !(bad.contains c))
      = (l.take n).filter (fun c => !(bad.contains c)) := by
  have h1 : ((l.take n).filter (fun c => !(bad.contains c))).length ≤ n :=
    le_trans (List.length_filter_le _ _) (by simp [List.length_take])
  rw [List.take_of_length_le h1, List.filter_filter]
  exact List.filter_congr (fun c _ => by cases bad.contains c <;> rfl)

theorem sanitize_core_mem {bad : List Char} {n : Nat} {l : List Char} {ch : Char}
    (h : ch ∈ (l.take n).filter (fun c => !(bad.contains c))) : ch ∉ bad := by
  have h2 := (List.mem_filter.mp h).2
  intro hmem
  rw [Bool.not_eq_true', ← Bool.not_eq_true] at h2
  exact h2 (List.elem_eq_true_of_mem hmem)

set_option maxRecDepth 4096 in
/-- C6: name/chat sanitization is idempotent and total, never lets a
denylisted character through, and enforces the length caps exactly: only the
first 16 (name) / 200 (chat) characters of the input matter, the output is at
most that long, and a run of 17 / 201 clean characters loses exactly its last
one. -/
theorem C6_sanitization (s : String) :
    sanitizeName (sanitizeName s) = sanitizeName s ∧
    sanitizeChat (sanitizeChat s) = sanitizeChat s ∧
    (∀ ch ∈ (sanitizeName s).data, ch ∉ nameBad) ∧
    (∀ ch ∈ (sanitizeChat s).data, ch ∉ chatBad) ∧
    (sanitizeName s).length ≤ 16 ∧
    (sanitizeChat s).length ≤ 200 ∧
    sanitizeName s = sanitizeName (String.mk (s.data.take 16)) ∧
    sanitizeChat s = sanitizeChat (String.mk (s.data.take 200)) ∧
    sanitizeName (String.mk (List.replicate 17 'a')) = String.mk (List.replicate 16 'a') ∧
    sanitizeChat (String.mk (List.replicate 201 'a')) = String.mk (List.replicate 200 'a') := by
  refine ⟨?_, ?_, ?_, ?_, ?_, ?_, ?_, ?_, ?_, ?_⟩
  · simp only [sanitizeName]
    exact congrArg String.mk (sanitize_core_idem nameBad 16 s.data)
  · simp only [sanitizeChat]
    exact congrArg String.mk (sanitize_core_idem chatBad 200 s.data)
  · exact fun ch hch => sanitize_core_mem hch
  · exact fun ch hch => sanitize_core_mem hch
  · simp only [sanitizeName, String.length]
    exact le_trans (List.length_filter_le _ _) (by simp [List.length_take])
  · simp only [sanitizeChat, String.length]
    exact le_trans (List.length_filter_le _ _) (by simp [List.length_take])
  · simp [sanitizeName, List.take_take]
  · simp [sanitizeChat, List.take_take]
  · decide
  · decide

/-! ### Concrete fixtures used by counterexamples and witnesses -/

/-- Session data of a player "A" with id `"aid"`, as created by a join at time 0. -/
def pA : PlayerData :=
  { id := "aid", name := "A", x := 0, z := 0, ry := 0, moving := false,
    equipment := [], stats := initialStats, lastPing := 0 }

/-- Session data of a player "B" with id `"bid"`, last pong at time 20000. -/
def pB : PlayerData :=
  { id := "bid", name := "B", x := 0, z := 0, ry := 0, moving := false,
    equipment := [], stats := initialStats, lastPing := 20000 }

/-- A state with sessions A (connection 0) and B (connection 1) joined. -/
def stateAB : ServerState :=
  { players := [(0, pA), (1, pB)],
    conns := [(0, { pData := some pA, readyState := 1 }),
              (1, { pData := some pB, readyState := 1 })],
    idStream := fun _ => "cid", idCount := 2 }

/-- 21 connections accepted while nobody has joined yet, then all 21 join. -/
def overCapacityEvents : List Event :=
  ((List.range 21).map Event.connect) ++
  ((List.range 21).map (fun i => Event.message i { type := "join" } 0))

/-- C1, counterexample: the capacity check happens only at connection-accept
time and counts only joined sessions, so 21 connections accepted while the
registry is empty can all join, leaving 21 > `MAX_PLAYERS` = 20 entries in the
registry — the claimed invariant fails on a reachable state. -/
theorem C1_counterexample :
    (run (initState (fun _ => "i")) overCapacityEvents).map
        (fun s => s.players.length) = some 21 ∧
    MAX_PLAYERS = 20 := by
  constructor
  · rfl
  · rfl

/-- C3, counterexample: `genId` is `Math.random().toString(36).slice(2, 10)`
with no collision check, so an id stream that repeats (which `Math.random`
can) produces two live registry entries with the same id. -/
theorem C3_counterexample :
    (run (initState (fun _ => "dup"))
        [Event.connect 0, Event.connect 1,
         Event.message 0 { type := "join" } 0,
         Event.message 1 { type := "join" } 0]).map
      (fun s => s.players.map (fun e => e.2.id)) = some ["dup", "dup"] ∧
    ¬ (["dup", "dup"] : List String).Nodup := by
  constructor
  · rfl
  · decide

/-- C4: evaluating the close handler at the failing input.  With sessions A
and B joined, delivering two `close` events for A's connection broadcasts
`leave {id:"aid"}` to B twice: the handler's guard is the closure variable
`pData`, which is never cleared, so the Joined→Closed transition is not
idempotent as the spec requires. -/
theorem C4_double_close_broadcasts_twice :
    (runAcc stateAB [Event.closeEv 0, Event.closeEv 0]).map Prod.snd
      = some [(1, ServerMsg.leave "aid"), (1, ServerMsg.leave "aid")] := by
  rfl

/-- C1 (amended): a connection accepted while the registry already holds
`MAX_PLAYERS` joined sessions is sent `{type:'error', msg:'Server full'}` and
closed without any listeners being registered, so it is never inserted into
the registry and none of its later frames have any effect.  (The registry
itself can still exceed capacity through joins of connections accepted
earlier, see `C1_counterexample`.) -/
theorem C1_full_connection_rejected (s : ServerState) (c : ConnId)
    (hfull : MAX_PLAYERS ≤ s.players.length)
    (hfresh : mapLookup s.conns c = none) :
    step s (.connect c) = some (s, [(c, ServerMsg.error "Server full")]) ∧
    ∀ (m : RawMsg) (now : Int), step s (.message c m now) = some (s, []) := by
  constructor
  · simp [step, handleConnect, hfresh, hfull]
  · intro m now
    simp [step, hfresh]

/-- A registry already holding `MAX_PLAYERS` sessions. -/
def fullState : ServerState :=
  { players := (List.range 20).map (fun i => (i, pA)), conns := [],
    idStream := fun _ => "i", idCount := 0 }

/-- Witness for C1: the 21st connection is rejected with `Server full`. -/
theorem C1_full_connection_rejected_witness :
    step fullState (.connect 99)
      = some (fullState, [(99, ServerMsg.error "Server full")]) :=
  (C1_full_connection_rejected fullState 99 (by decide) (by rfl)).1

/-- C9: a `join` whose `name` field is absent or falsy still succeeds and
creates a session whose display name is the default `"Player"`
(`(msg.name || 'Player')`, server.js line 68). -/
theorem C9_missing_name_defaults (s : ServerState) (c : ConnId) (cs : ConnState)
    (now : Int) (nm : Option JsVal)
    (hcs : mapLookup s.conns c = some cs) (hpd : cs.pData = none)
    (hfalsy : ∀ v, nm = some v → truthy v = false) :
    ∃ s1 outs,
      step s (.message c { type := "join", name := nm } now) = some (s1, outs) ∧
      ∃ pd, mapLookup s1.players c = some pd ∧ pd.name = "Player" := by
  have hname : strOrDefault nm "Player" = some "Player" := by
    cases nm with
    | none => rfl
    | some v => simp [strOrDefault, hfalsy v rfl]
  refine ⟨(doJoin s c "Player" now).1, (doJoin s c "Player" now).2, ?_, ?_⟩
  · simp [step, hcs, handleMessage, hpd, hname]
  · refine ⟨joinPData s "Player" now, ?_, ?_⟩
    · show mapLookup (doJoin s c "Player" now).1.players c = _
      simp only [doJoin]
      exact mapSet_lookup_self _ _ _
    · rfl

/-- A `groundDrop` frame carrying only a quantity field. -/
def groundDropMsg (q : Option JsVal) : RawMsg :=
  { type := "groundDrop", quantity := q }

/-- C8: the `groundDrop` quantity is clamped to at most 1000
(`Math.min(Number(msg.quantity) || 1, 1000)`, server.js line 162): a raw
quantity of 5000 is broadcast as 1000, and whatever the quantity field holds,
every broadcast frame carries a quantity ≤ 1000. -/
theorem C8_groundDrop_clamped (s : ServerState) (c : ConnId) (cs : ConnState)
    (p : PlayerData) (now : Int)
    (hcs : mapLookup s.conns c = some cs) (hpd : cs.pData = some p) :
    (step s (.message c (groundDropMsg (some (.num 5000))) now)
      = some (s, broadcastOuts s
          (.groundDrop p.id p.name 0 0 "" 1000) (some c))) ∧
    ∀ (m : RawMsg), m.type = "groundDrop" →
      ∀ r, step s (.message c m now) = some r →
        ∀ o ∈ r.2, ∃ xw zw iw qw,
          o.2 = ServerMsg.groundDrop p.id p.name xw zw iw qw ∧ qw ≤ 1000 := by
  constructor
  · simp [step, hcs, handleMessage, hpd, groundDropMsg, strOrDefault,
      doGroundDrop, numOr, toNumber]
  · intro m htype r hr o ho
    simp only [step, hcs, handleMessage, hpd, htype] at hr
    simp at hr
    obtain ⟨raw, hitem, hdo⟩ := hr
    subst hdo
    simp only [doGroundDrop] at ho
    refine ⟨numOr m.x 0, numOr m.z 0, String.mk (raw.data.take 64),
      min (numOr m.quantity 1) 1000, ?_, min_le_right _ _⟩
    exact (mem_broadcastOuts ho).1

/-- Witness for C8: quantity 5000 from session A in `stateAB` reaches B as
exactly 1000. -/
theorem C8_groundDrop_clamped_witness :
    step stateAB (.message 0 (groundDropMsg (some (.num 5000))) 0)
      = some (stateAB, broadcastOuts stateAB
          (.groundDrop "aid" "A" 0 0 "" 1000) (some 0)) :=
  (C8_groundDrop_clamped stateAB 0 _ pA 0 (by rfl) (by rfl)).1

/-- C10: the `groundDrop` quantity coercion defaults to 1 and has no lower
bound: an absent, NaN-coercing, or zero quantity is broadcast as 1, while a
negative quantity passes through unchanged (the clamp only caps from above). -/
theorem C10_quantity_default_no_floor (s : ServerState) (c : ConnId)
    (cs : ConnState) (p : PlayerData) (now : Int)
    (hcs : mapLookup s.conns c = some cs) (hpd : cs.pData = some p) :
    (step s (.message c (groundDropMsg none) now)
      = some (s, broadcastOuts s (.groundDrop p.id p.name 0 0 "" 1) (some c))) ∧
    (∀ v : JsVal, toNumber v = none →
      step s (.message c (groundDropMsg (some v)) now)
        = some (s, broadcastOuts s (.groundDrop p.id p.name 0 0 "" 1) (some c))) ∧
    (step s (.message c (groundDropMsg (some (.num 0))) now)
      = some (s, broadcastOuts s (.groundDrop p.id p.name 0 0 "" 1) (some c))) ∧
    ∀ n : Int, n < 0 →
      step s (.message c (groundDropMsg (some (.num n))) now)
        = some (s, broadcastOuts s (.groundDrop p.id p.name 0 0 "" n) (some c)) := by
  refine ⟨?_, ?_, ?_, ?_⟩
  · simp [step, hcs, handleMessage, hpd, groundDropMsg, strOrDefault,
      doGroundDrop, numOr, toNumber]
  · intro v hv
    simp [step, hcs, handleMessage, hpd, groundDropMsg, strOrDefault,
      doGroundDrop, numOr, hv]
  · simp [step, hcs, handleMessage, hpd, groundDropMsg, strOrDefault,
      doGroundDrop, numOr, toNumber]
  · intro n hn
    have hq : (if n = 0 then (1 : Int) else n) ⊓ 1000 = n := by
      rw [if_neg (by omega : ¬ n = 0)]
      exact min_eq_left (by omega)
    simp [step, hcs, handleMessage, hpd, groundDropMsg, strOrDefault,
      doGroundDrop, numOr, toNumber, hq]

/-- Witness for C10: a missing quantity reaches B as 1. -/
theorem C10_quantity_default_no_floor_witness :
    step stateAB (.message 0 (groundDropMsg none) 0)
      = some (stateAB, broadcastOuts stateAB
          (.groundDrop "aid" "A" 0 0 "" 1) (some 0)) :=
  (C10_quantity_default_no_floor stateAB 0 _ pA 0 (by rfl) (by rfl)).1

/-- C7: the `welcome` sent to a successful joiner is its first frame and
carries exactly the map of the registry as it stood before the join — every
currently-Joined session except the new one, each projected to its current
id/name/position/equipment/stats (server.js lines 80–91) — while the rest of
the emitted frames (the `join` broadcast) never target the joiner. -/
theorem C7_welcome_roster (s : ServerState) (c : ConnId) (cs : ConnState)
    (m : RawMsg) (now : Int) (rawName : String)
    (hcs : mapLookup s.conns c = some cs) (hpd : cs.pData = none)
    (hopen : readyStateOf s c = 1)
    (htype : m.type = "join") (hname : strOrDefault m.name "Player" = some rawName)
    (hfresh : mapLookup s.players c = none) :
    ∃ s1 outs, step s (.message c m now) = some (s1, outs) ∧
      outs.head? = some (c, ServerMsg.welcome (s.idStream s.idCount)
        (s.players.map (fun e => playerView e.2))) ∧
      ∀ o ∈ outs.tail, o.1 ≠ c := by
  have hne : ∀ e ∈ s.players, e.1 ≠ c := mapLookup_eq_none hfresh
  have hcsr : cs.readyState = 1 := by
    simpa [readyStateOf, hcs] using hopen
  have hstep : step s (.message c m now) = some (doJoin s c rawName now) := by
    simp [step, hcs, handleMessage, hpd, htype, hname]
  have hset : mapSet s.players c (joinPData s rawName now)
      = s.players ++ [(c, joinPData s rawName now)] :=
    mapSet_of_fresh _ hne
  have hfilter : (mapSet s.players c (joinPData s rawName now)).filter
      (fun e => decide (e.1 ≠ c)) = s.players := by
    rw [hset, List.filter_append]
    have h1 : s.players.filter (fun e => decide (e.1 ≠ c)) = s.players :=
      List.filter_eq_self.mpr (fun e he => decide_eq_true (hne e he))
    simp [h1]
    exact fun a b hab => hne (a, b) hab
  refine ⟨_, _, hstep, ?_, ?_⟩
  · simp only [doJoin, hfilter, sendToOut, readyStateOf, mapUpdate_lookup_self,
      hcs, Option.map_some']
    rw [if_pos hcsr]
    simp
  · intro o ho
    simp only [doJoin, sendToOut, readyStateOf, mapUpdate_lookup_self, hcs,
      Option.map_some'] at ho
    rw [if_pos hcsr] at ho
    simp only [List.singleton_append, List.tail_cons] at ho
    exact broadcastOuts_excludes ho

/-- `stateAB` with an extra accepted-but-Pending connection 5. -/
def stateABPending : ServerState :=
  { stateAB with
    conns := stateAB.conns ++ [(5, { pData := none, readyState := 1 })] }

/-- Witness for C7: Carol joining `stateAB` gets a welcome listing exactly A
and B with their current state. -/
theorem C7_welcome_roster_witness :
    ∃ s1 outs,
      step stateABPending
          (.message 5 { type := "join", name := some (.str "Carol") } 99)
        = some (s1, outs) ∧
      outs.head? = some (5, ServerMsg.welcome
        (stateABPending.idStream stateABPending.idCount)
        (stateABPending.players.map (fun e => playerView e.2))) ∧
      ∀ o ∈ outs.tail, o.1 ≠ 5 :=
  C7_welcome_roster stateABPending 5 { pData := none, readyState := 1 }
    { type := "join", name := some (.str "Carol") } 99 "Carol"
    (by rfl) (by rfl) (by rfl) (by rfl) (by rfl) (by rfl)

/-- C5: `chat` is the only message type whose broadcast is echoed to the
sender.  A chat with non-empty sanitized text is broadcast with no exclusion,
reaching every open registered session including the sender; the broadcasts
for `move`, `equip`, `stats`, `attack`, `enemyKill` and `groundDrop` exclude
the sender's connection, and a joiner receives only its `welcome`, never the
`join` broadcast. -/
theorem C5_only_chat_echoes (s : ServerState) (c : ConnId) (cs : ConnState)
    (p pc : PlayerData) (now : Int)
    (hcs : mapLookup s.conns c = some cs) (hpd : cs.pData = some p)
    (hreg : mapLookup s.players c = some pc) (hopen : readyStateOf s c = 1) :
    (∀ t : String, 0 < (sanitizeChat t).length →
      step s (.message c { type := "chat", text := some (.str t) } now)
        = some (s, broadcastOuts s (.chat p.id p.name (sanitizeChat t)) none) ∧
      (c, ServerMsg.chat p.id p.name (sanitizeChat t))
        ∈ broadcastOuts s (.chat p.id p.name (sanitizeChat t)) none ∧
      ∀ e ∈ s.players, readyStateOf s e.1 = 1 →
        (e.1, ServerMsg.chat p.id p.name (sanitizeChat t))
          ∈ broadcastOuts s (.chat p.id p.name (sanitizeChat t)) none) ∧
    (∀ m : RawMsg,
      m.type = "move" ∨ m.type = "equip" ∨ m.type = "stats" ∨
        m.type = "attack" ∨ m.type = "enemyKill" ∨ m.type = "groundDrop" →
      ∀ r, step s (.message c m now) = some r → ∀ o ∈ r.2, o.1 ≠ c) ∧
    ∀ (j : ConnId) (csj : ConnState) (mj : RawMsg),
      mapLookup s.conns j = some csj → csj.pData = none → mj.type = "join" →
      ∀ r, step s (.message j mj now) = some r →
        ∀ o ∈ r.2, o.1 = j → ∃ wid wpl, o.2 = ServerMsg.welcome wid wpl := by
  refine ⟨?_, ?_, ?_⟩
  · intro t ht
    have ht0 : ¬ t = "" := by
      intro h
      subst h
      simp [sanitizeChat] at ht
    have hraw : strOrDefault (some (.str t)) "" = some t := by
      simp [strOrDefault, truthy, ht0]
    refine ⟨?_, ?_, ?_⟩
    · simp [step, hcs, handleMessage, hpd, hraw, doChat, ht]
    · exact broadcastOuts_mem_intro (mapLookup_mem hreg) hopen (by simp)
    · intro e he hopene
      exact broadcastOuts_mem_intro (by simpa using he) hopene (by simp)
  · intro m htype r hr o ho
    rcases htype with h | h | h | h | h | h
    · simp only [step, hcs, handleMessage, hpd, h] at hr
      simp at hr
      subst hr
      simp only [doMove] at ho
      exact broadcastOuts_excludes ho
    · simp only [step, hcs, handleMessage, hpd, h] at hr
      simp at hr
      subst hr
      simp only [doEquip] at ho
      exact broadcastOuts_excludes ho
    · simp only [step, hcs, handleMessage, hpd, h] at hr
      simp at hr
      subst hr
      simp only [doStats] at ho
      exact broadcastOuts_excludes ho
    · simp only [step, hcs, handleMessage, hpd, h] at hr
      simp at hr
      subst hr
      simp only [doAttack] at ho
      exact broadcastOuts_excludes ho
    · simp only [step, hcs, handleMessage, hpd, h] at hr
      simp at hr
      subst hr
      simp only [doEnemyKill] at ho
      exact broadcastOuts_excludes ho
    · simp only [step, hcs, handleMessage, hpd, h] at hr
      simp at hr
      obtain ⟨raw, hitem, hdo⟩ := hr
      subst hdo
      simp only [doGroundDrop] at ho
      exact broadcastOuts_excludes ho
  · intro j csj mj hcsj hpdj htj r hr o ho hoj
    simp only [step, hcsj, handleMessage, hpdj, htj] at hr
    simp at hr
    obtain ⟨raw, hnm, hdo⟩ := hr
    subst hdo
    simp only [doJoin] at ho
    rcases List.mem_append.mp ho with hsend | hbo
    · simp only [sendToOut] at hsend
      by_cases hrs : readyStateOf
          { s with
            players := mapSet s.players j (joinPData s raw now),
            conns := mapUpdate s.conns j
              (fun k => { k with pData := some (joinPData s raw now) }),
            idCount := s.idCount + 1 } j = 1
      · rw [if_pos hrs] at hsend
        rcases List.mem_singleton.mp hsend with rfl
        exact ⟨_, _, rfl⟩
      · rw [if_neg hrs] at hsend
        cases hsend
    · exact absurd hoj (broadcastOuts_excludes hbo)

/-- Witness for C5: in `stateAB`, A's own chat frame is delivered back to A. -/
theorem C5_only_chat_echoes_witness :
    (0, ServerMsg.chat "aid" "A" (sanitizeChat "hi"))
      ∈ broadcastOuts stateAB (.chat "aid" "A" (sanitizeChat "hi")) none :=
  ((C5_only_chat_echoes stateAB 0 { pData := some pA, readyState := 1 } pA pA 0
      (by rfl) (by rfl) (by rfl) (by rfl)).1 "hi" (by decide)).2.1

/-! ### Id-uniqueness invariant (for C3) -/

/-- The ids of all live registry entries, in registry order. -/
def idsOf (s : ServerState) : List String :=
  s.players.map (fun e => e.2.id)

/-- Invariant carried along every run: the id stream is injective, the live
ids are pairwise distinct, and every live id was drawn from the consumed
prefix of the stream. -/
def GoodIds (s : ServerState) : Prop :=
  (∀ i j : Nat, s.idStream i = s.idStream j → i = j) ∧
  (idsOf s).Nodup ∧
  ∀ x ∈ idsOf s, ∃ i, i < s.idCount ∧ x = s.idStream i

theorem ids_mapUpdate (m : List (ConnId × PlayerData)) (c : ConnId)
    (f : PlayerData → PlayerData) (hf : ∀ p, (f p).id = p.id) :
    (mapUpdate m c f).map (fun e => e.2.id) = m.map (fun e => e.2.id) := by
  induction m with
  | nil => rfl
  | cons e t ih =>
    by_cases hc : e.1 = c
    · simp [mapUpdate, hc, hf]
    · simp [mapUpdate, hc, ih]

theorem ids_mapSet_sub {m : List (ConnId × PlayerData)} {c : ConnId}
    {pd : PlayerData} {x : String}
    (hx : x ∈ (mapSet m c pd).map (fun e => e.2.id)) :
    x ∈ m.map (fun e => e.2.id) ∨ x = pd.id := by
  rcases List.mem_map.mp hx with ⟨e, he, rfl⟩
  rcases mem_mapSet he with hm | rfl
  · exact Or.inl (List.mem_map_of_mem _ hm)
  · exact Or.inr rfl

theorem ids_mapSet_nodup (m : List (ConnId × PlayerData)) (c : ConnId)
    (pd : PlayerData) (hnd : (m.map (fun e => e.2.id)).Nodup)
    (hfresh : ∀ e ∈ m, e.2.id ≠ pd.id) :
    ((mapSet m c pd).map (fun e => e.2.id)).Nodup := by
  induction m with
  | nil => simp [mapSet]
  | cons e t ih =>
    simp only [List.map_cons, List.nodup_cons] at hnd
    by_cases hc : e.1 = c
    · simp only [mapSet, hc, if_pos, List.map_cons, List.nodup_cons]
      refine ⟨?_, hnd.2⟩
      intro hmem
      rcases List.mem_map.mp hmem with ⟨e', he', heq⟩
      exact hfresh e' (List.mem_cons_of_mem _ he') heq
    · simp only [mapSet, hc, if_neg, not_false_iff, List.map_cons, List.nodup_cons]
      refine ⟨?_, ih hnd.2 (fun e' he' => hfresh e' (List.mem_cons_of_mem _ he'))⟩
      intro hmem
      rcases ids_mapSet_sub hmem with hm | heq
      · exact hnd.1 hm
      · exact hfresh e (List.mem_cons_self _ _) heq

/-- Transfer of the id invariant along any step that only drops registry
entries (or keeps them) and leaves the id machinery alone. -/
theorem goodIds_of_sublist {s1 s : ServerState}
    (hp : s1.players.Sublist s.players) (hs : s1.idStream = s.idStream)
    (hc : s1.idCount = s.idCount) (hg : GoodIds s) : GoodIds s1 := by
  obtain ⟨hinj, hnd, hbound⟩ := hg
  refine ⟨by rw [hs]; exact hinj, ?_, ?_⟩
  · exact hnd.sublist (hp.map _)
  · intro x hx
    rcases hbound x ((hp.map (fun e => e.2.id)).subset hx) with ⟨i, hi, hxi⟩
    exact ⟨i, by rw [hc]; exact hi, by rw [hs]; exact hxi⟩

theorem goodIds_updatePData {s : ServerState} {c : ConnId}
    {f : PlayerData → PlayerData} (hf : ∀ p, (f p).id = p.id)
    (hg : GoodIds s) : GoodIds (updatePData s c f) := by
  obtain ⟨hinj, hnd, hbound⟩ := hg
  have hids : idsOf (updatePData s c f) = idsOf s := ids_mapUpdate _ _ _ hf
  exact ⟨hinj, by rw [hids]; exact hnd, by rw [hids]; exact hbound⟩

theorem goodIds_doJoin {s : ServerState} {c : ConnId} {rawName : String}
    {now : Int} (hg : GoodIds s) : GoodIds (doJoin s c rawName now).1 := by
  obtain ⟨hinj, hnd, hbound⟩ := hg
  have hfresh : ∀ e ∈ s.players, e.2.id ≠ s.idStream s.idCount := by
    intro e he heq
    rcases hbound e.2.id (List.mem_map_of_mem _ he) with ⟨i, hi, hxi⟩
    have : i = s.idCount := hinj i s.idCount (hxi ▸ heq)
    omega
  refine ⟨hinj, ?_, ?_⟩
  · show ((mapSet s.players c (joinPData s rawName now)).map (fun e => e.2.id)).Nodup
    exact ids_mapSet_nodup _ _ _ hnd hfresh
  · intro x hx
    have hx2 : x ∈ (mapSet s.players c (joinPData s rawName now)).map
        (fun e => e.2.id) := hx
    rcases ids_mapSet_sub hx2 with hm | hxid
    · rcases hbound x hm with ⟨i, hi, hxi⟩
      exact ⟨i, by show i < s.idCount + 1; omega, hxi⟩
    · exact ⟨s.idCount, by show s.idCount < s.idCount + 1; omega, hxid⟩

theorem tickBody_shape (now : Int) (acc : ServerState × List (ConnId × ServerMsg))
    (e : ConnId × PlayerData) :
    (tickBody now acc e).1.players.Sublist acc.1.players ∧
    (tickBody now acc e).1.idCount = acc.1.idCount ∧
    (tickBody now acc e).1.idStream = acc.1.idStream := by
  by_cases hto : HEARTBEAT_TIMEOUT < now - e.2.lastPing
  · simp only [tickBody, if_pos hto]
    exact ⟨mapDelete_sublist _ _, by trivial, by trivial⟩
  · simp only [tickBody, if_neg hto]
    exact ⟨List.Sublist.refl _, by trivial, by trivial⟩

theorem foldl_tickBody_shape (now : Int) (l : List (ConnId × PlayerData))
    (acc : ServerState × List (ConnId × ServerMsg)) :
    (l.foldl (tickBody now) acc).1.players.Sublist acc.1.players ∧
    (l.foldl (tickBody now) acc).1.idCount = acc.1.idCount ∧
    (l.foldl (tickBody now) acc).1.idStream = acc.1.idStream := by
  induction l generalizing acc with
  | nil => exact ⟨List.Sublist.refl _, rfl, rfl⟩
  | cons e t ih =>
    simp only [List.foldl_cons]
    rcases ih (tickBody now acc e) with ⟨h1, h2, h3⟩
    rcases tickBody_shape now acc e with ⟨g1, g2, g3⟩
    exact ⟨h1.trans g1, by rw [h2, g2], by rw [h3, g3]⟩

/-- Every single step of the server preserves the id invariant. -/
theorem step_preserves_goodIds {s s1 : ServerState} {ev : Event}
    {outs : List (ConnId × ServerMsg)}
    (h : step s ev = some (s1, outs)) (hg : GoodIds s) : GoodIds s1 := by
  cases ev with
  | connect c =>
    simp only [step, handleConnect] at h
    split_ifs at h <;>
      (cases h; exact goodIds_of_sublist (List.Sublist.refl _) rfl rfl hg)
  | badFrame c =>
    cases h
    exact hg
  | closeEv c =>
    simp only [step, handleClose] at h
    rcases hlk : mapLookup s.conns c with _ | cs
    · simp only [hlk] at h
      cases h
      exact hg
    · simp only [hlk] at h
      rcases hpd : cs.pData with _ | p <;> simp only [hpd] at h <;> cases h <;>
        exact goodIds_of_sublist (mapDelete_sublist _ _) (by rfl) (by rfl) hg
  | errorEv c =>
    simp only [step, handleError] at h
    rcases hlk : mapLookup s.conns c with _ | cs <;> simp only [hlk] at h <;>
      cases h
    · exact hg
    · exact goodIds_of_sublist (mapDelete_sublist _ _) (by rfl) (by rfl) hg
  | tick now =>
    simp only [step, stepTick] at h
    have h2 : (List.foldl (tickBody now) (s, []) s.players).1 = s1 := by
      have := congrArg (fun o => (o.map Prod.fst)) h
      simpa using this
    rcases foldl_tickBody_shape now s.players (s, []) with ⟨hsub, hic, his⟩
    rw [← h2]
    exact goodIds_of_sublist hsub his hic hg
  | message c m now =>
    simp only [step] at h
    rcases hlk : mapLookup s.conns c with _ | cs
    · simp only [hlk] at h
      cases h
      exact hg
    · simp only [hlk] at h
      simp only [handleMessage] at h
      rcases hpd : cs.pData with _ | p <;> simp only [hpd] at h
      · by_cases ht : m.type = "join"
        · rw [if_pos ht] at h
          rcases hsd : strOrDefault m.name "Player" with _ | raw
          · simp [hsd] at h
          · simp only [hsd, Option.map_some'] at h
            have hs1 : (doJoin s c raw now).1 = s1 := by
              have := congrArg (fun o => (o.map Prod.fst)) h
              simpa using this
            rw [← hs1]
            exact goodIds_doJoin hg
        · rw [if_neg ht] at h
          cases h
          exact hg
      · split_ifs at h with h1 h2 h3 h4 h5 h6 h7 h8 h9
        · cases h; exact hg
        · cases h
          exact goodIds_updatePData (fun q => rfl) hg
        · rcases hsd : strOrDefault m.text "" with _ | raw
          · simp [hsd] at h
          · simp only [hsd, Option.map_some'] at h
            have hchat : (doChat s c p raw).1 = s := by
              simp only [doChat]
              split_ifs <;> rfl
            have hs1 : (doChat s c p raw).1 = s1 := by
              have := congrArg (fun o => (o.map Prod.fst)) h
              simpa using this
            rw [← hs1, hchat]
            exact hg
        · cases h
          exact goodIds_updatePData (fun q => rfl) hg
        · cases h
          exact goodIds_updatePData (fun q => rfl) hg
        · cases h
          exact hg
        · cases h
          exact hg
        · rcases hsd : strOrDefault m.itemId "" with _ | raw
          · simp [hsd] at h
          · simp only [hsd, Option.map_some'] at h
            cases h
            exact hg
        · cases h
          exact goodIds_updatePData (fun q => rfl) hg
        · cases h
          exact hg

/-- The id invariant survives any successful run. -/
theorem runAcc_preserves_goodIds :
    ∀ (es : List Event) (s0 s1 : ServerState) (outs : List (ConnId × ServerMsg)),
      runAcc s0 es = some (s1, outs) → GoodIds s0 → GoodIds s1 := by
  intro es
  induction es with
  | nil =>
    intro s0 s1 outs h hg
    cases h
    exact hg
  | cons e t ih =>
    intro s0 s1 outs h hg
    simp only [runAcc] at h
    rcases hstep : step s0 e with _ | so
    · simp only [hstep] at h
      cases h
    · obtain ⟨sA, oA⟩ := so
      simp only [hstep] at h
      rcases hrun : runAcc sA t with _ | so2
      · simp only [hrun] at h
        cases h
      · obtain ⟨sB, oB⟩ := so2
        simp only [hrun] at h
        cases h
        exact ih sA _ _ hrun (step_preserves_goodIds hstep hg)

/-- C3 (amended): as long as the id stream backing `genId` never repeats,
every reachable state carries pairwise-distinct ids across its registry
entries.  (The code never checks for collisions, so a repeating stream
violates uniqueness — see `C3_counterexample`.) -/
theorem C3_unique_ids (f : Nat → String) (hinj : ∀ i j, f i = f j → i = j)
    (es : List Event) (s : ServerState)
    (h : run (initState f) es = some s) : (idsOf s).Nodup := by
  rcases hra : runAcc (initState f) es with _ | so
  · rw [run, hra] at h
    cases h
  · obtain ⟨s', outs⟩ := so
    rw [run, hra] at h
    simp only [Option.map_some'] at h
    cases h
    have hg0 : GoodIds (initState f) :=
      ⟨hinj, by simp [idsOf, initState], by simp [idsOf, initState]⟩
    exact (runAcc_preserves_goodIds es _ _ _ hra hg0).2.1

/-- An injective id stream for the C3 witness. -/
def wStream : Nat → String := fun i => String.mk (List.replicate i 'a')

/-- The session created by the C3 witness run. -/
def wPd : PlayerData :=
  { id := wStream 0, name := "Player", x := 0, z := 0, ry := 0, moving := false,
    equipment := [], stats := initialStats, lastPing := 5 }

/-- The final state of the C3 witness run. -/
def wState : ServerState :=
  { players := [(0, wPd)],
    conns := [(0, { pData := some wPd, readyState := 1 })],
    idStream := wStream, idCount := 1 }

/-- Witness for C3: a run under an injective id stream ends with distinct ids. -/
theorem C3_unique_ids_witness : (idsOf wState).Nodup :=
  C3_unique_ids wStream
    (fun i j h => by
      have := congrArg (fun t => t.data.length) h
      simpa [wStream] using this)
    [Event.connect 0, Event.message 0 { type := "join" } 5] wState (by rfl)

/-! ### Heartbeat eviction (for C2) -/

theorem mapLookup_none_of_fresh {α : Type} {m : List (ConnId × α)} {c : ConnId}
    (h : ∀ e ∈ m, e.1 ≠ c) : mapLookup m c = none := by
  induction m with
  | nil => rfl
  | cons e t ih =>
    have he : e.1 ≠ c := h e (by simp)
    simp only [mapLookup, he, if_neg, not_false_iff]
    exact ih (fun e' he' => h e' (List.mem_cons_of_mem _ he'))

/-- Number of occurrences of one frame in an output trace. -/
def countOut (outs : List (ConnId × ServerMsg)) (o : ConnId × ServerMsg) : Nat :=
  (outs.filter (fun x => decide (x = o))).length

theorem countOut_cons (x o : ConnId × ServerMsg) (l : List (ConnId × ServerMsg)) :
    countOut (x :: l) o = (if x = o then 1 else 0) + countOut l o := by
  by_cases hx : x = o
  · simp [countOut, List.filter_cons, hx]
    omega
  · simp [countOut, List.filter_cons, hx]

theorem countOut_append (l1 l2 : List (ConnId × ServerMsg))
    (o : ConnId × ServerMsg) :
    countOut (l1 ++ l2) o = countOut l1 o + countOut l2 o := by
  simp [countOut, List.filter_append]

theorem countOut_eq_zero {l : List (ConnId × ServerMsg)} {o : ConnId × ServerMsg}
    (h : o ∉ l) : countOut l o = 0 := by
  induction l with
  | nil => rfl
  | cons x t ih =>
    have hx : ¬ x = o := fun hh => h (hh ▸ List.mem_cons_self _ _)
    rw [countOut_cons, if_neg hx, ih (fun ht => h (List.mem_cons_of_mem _ ht))]

/-- In a key-deduplicated source list, a per-open-connection `filterMap`
emits any given frame at most once: exactly once for a present open key. -/
theorem countOut_filterMap_key (l : List (ConnId × PlayerData))
    (rs : ConnId → Nat) (msgv : ServerMsg) (k : ConnId)
    (hnd : (l.map Prod.fst).Nodup) (hk : k ∈ l.map Prod.fst) :
    countOut (l.filterMap (fun e => if rs e.1 = 1 then some (e.1, msgv) else none))
        (k, msgv)
      = if rs k = 1 then 1 else 0 := by
  induction l with
  | nil => simp at hk
  | cons e t ih =>
    simp only [List.map_cons, List.nodup_cons] at hnd
    simp only [List.map_cons, List.mem_cons] at hk
    rcases hk with rfl | hkt
    · have hnot : (e.1, msgv) ∉ t.filterMap
          (fun e' => if rs e'.1 = 1 then some (e'.1, msgv) else none) := by
        intro hmem
        rcases List.mem_filterMap.mp hmem with ⟨e', he', hf⟩
        by_cases hrs : rs e'.1 = 1
        · rw [if_pos hrs] at hf
          simp only [Option.some_inj, Prod.mk.injEq] at hf
          have h1 : e'.1 ∈ t.map Prod.fst := List.mem_map_of_mem _ he'
          rw [hf.1] at h1
          exact hnd.1 h1
        · rw [if_neg hrs] at hf
          cases hf
      by_cases hrs : rs e.1 = 1
      · simp only [List.filterMap_cons, if_pos hrs, countOut_cons,
          countOut_eq_zero hnot, if_pos hrs]
        simp
      · simp only [List.filterMap_cons, if_neg hrs, countOut_eq_zero hnot]
    · have hek : e.1 ≠ k := fun hh => hnd.1 (hh ▸ hkt)
      have iht := ih hnd.2 hkt
      by_cases hrs : rs e.1 = 1
      · simp only [List.filterMap_cons, if_pos hrs, countOut_cons]
        have hne : ¬ ((e.1, msgv) = (k, msgv)) := by simp [hek]
        rw [if_neg hne, iht]
        simp
      · simp only [List.filterMap_cons, if_neg hrs]
        exact iht

theorem readyStateOf_eq_of_lookup {s1 s2 : ServerState} {x : ConnId}
    (h : mapLookup s1.conns x = mapLookup s2.conns x) :
    readyStateOf s1 x = readyStateOf s2 x := by
  simp [readyStateOf, h]

theorem mapDelete_lookup_ne {α : Type} (m : List (ConnId × α)) (k x : ConnId)
    (h : x ≠ k) : mapLookup (mapDelete m k) x = mapLookup m x := by
  induction m with
  | nil => rfl
  | cons e t ih =>
    simp only [mapDelete]
    by_cases hk : e.1 = k
    · have hex : ¬ e.1 = x := by
        rw [hk]
        exact fun hh => h hh.symm
      rw [if_pos hk]
      simp only [mapLookup]
      rw [if_neg hex]
    · rw [if_neg hk]
      simp only [mapLookup]
      by_cases hx : e.1 = x
      · rw [if_pos hx, if_pos hx]
      · rw [if_neg hx, if_neg hx]
        exact ih

theorem mapDelete_lookup_self {α : Type} (m : List (ConnId × α)) (c : ConnId)
    (hnd : (m.map Prod.fst).Nodup) :
    mapLookup (mapDelete m c) c = none := by
  induction m with
  | nil => rfl
  | cons e t ih =>
    simp only [List.map_cons, List.nodup_cons] at hnd
    by_cases hk : e.1 = c
    · simp only [mapDelete, hk, if_pos]
      apply mapLookup_none_of_fresh
      intro e' he' heq
      have h1 : e'.1 ∈ t.map Prod.fst := List.mem_map_of_mem _ he'
      rw [heq, ← hk] at h1
      exact hnd.1 h1
    · simp only [mapDelete, hk, if_neg, not_false_iff, mapLookup]
      exact ih hnd.2

theorem mapLookup_eq_of_mem_nodup {α : Type} {m : List (ConnId × α)} {x : ConnId}
    {v : α} (hnd : (m.map Prod.fst).Nodup) (hm : (x, v) ∈ m) :
    mapLookup m x = some v := by
  induction m with
  | nil => cases hm
  | cons e t ih =>
    simp only [List.map_cons, List.nodup_cons] at hnd
    rcases List.mem_cons.mp hm with rfl | hmt
    · simp [mapLookup]
    · have hex : e.1 ≠ x := by
        intro hh
        apply hnd.1
        rw [hh]
        exact List.mem_map_of_mem _ hmt
      simp [mapLookup, hex, ih hnd.2 hmt]

/-- The heartbeat fold touches the registry and the connection table only at
the keys of timed-out entries: every other key reads unchanged. -/
theorem foldl_tickBody_lookup_ne (now : Int) (l : List (ConnId × PlayerData))
    (st : ServerState) (outs : List (ConnId × ServerMsg)) (x : ConnId)
    (hx : ∀ e ∈ l, HEARTBEAT_TIMEOUT < now - e.2.lastPing → e.1 ≠ x) :
    mapLookup (l.foldl (tickBody now) (st, outs)).1.players x
      = mapLookup st.players x ∧
    mapLookup (l.foldl (tickBody now) (st, outs)).1.conns x
      = mapLookup st.conns x := by
  induction l generalizing st outs with
  | nil => exact ⟨rfl, rfl⟩
  | cons e t ih =>
    by_cases hto : HEARTBEAT_TIMEOUT < now - e.2.lastPing
    · have hne : x ≠ e.1 :=
        fun hh => hx e (List.mem_cons_self _ _) hto hh.symm
      simp only [List.foldl_cons, tickBody, if_pos hto]
      rcases ih { st with
          players := mapDelete st.players e.1,
          conns := mapUpdate st.conns e.1 (fun k => { k with readyState := 3 }) }
        outs (fun e' he' ht' => hx e' (List.mem_cons_of_mem _ he') ht')
        with ⟨ha, hb⟩
      refine ⟨?_, ?_⟩
      · rw [ha]
        exact mapDelete_lookup_ne _ _ _ hne
      · rw [hb]
        exact mapUpdate_lookup_ne _ _ _ _ hne
    · simp only [List.foldl_cons, tickBody, if_neg hto]
      exact ih _ _ (fun e' he' ht' => hx e' (List.mem_cons_of_mem _ he') ht')

/-- A timed-out entry of the iterated list is deleted from the registry and
its socket terminated by the heartbeat fold, whatever other entries (timed
out or not) the list carries. -/
theorem foldl_tickBody_evicts (now : Int) (l : List (ConnId × PlayerData)) :
    ∀ (st : ServerState) (outs : List (ConnId × ServerMsg)) (c : ConnId)
      (p : PlayerData),
    (l.map Prod.fst).Nodup → (st.players.map Prod.fst).Nodup →
    (c, p) ∈ l → HEARTBEAT_TIMEOUT < now - p.lastPing →
    mapLookup (l.foldl (tickBody now) (st, outs)).1.players c = none ∧
    mapLookup (l.foldl (tickBody now) (st, outs)).1.conns c
      = (mapLookup st.conns c).map (fun k => { k with readyState := 3 }) := by
  induction l with
  | nil =>
    intro st outs c p _ _ hm
    cases hm
  | cons e t ih =>
    intro st outs c p hndl hndst hm ht
    simp only [List.map_cons, List.nodup_cons] at hndl
    rcases List.mem_cons.mp hm with heq | hmt
    · -- the head entry is the timed-out (c, p)
      obtain rfl := heq.symm
      simp only [List.foldl_cons, tickBody, if_pos ht]
      have hc_not : ∀ e' ∈ t, HEARTBEAT_TIMEOUT < now - e'.2.lastPing → e'.1 ≠ c := by
        intro e' he' _ heq'
        have h1 : e'.1 ∈ t.map Prod.fst := List.mem_map_of_mem _ he'
        rw [heq'] at h1
        exact hndl.1 h1
      rcases foldl_tickBody_lookup_ne now t { st with
          players := mapDelete st.players c,
          conns := mapUpdate st.conns c (fun k => { k with readyState := 3 }) }
        outs c hc_not with ⟨ha, hb⟩
      refine ⟨?_, ?_⟩
      · rw [ha]
        exact mapDelete_lookup_self _ _ hndst
      · rw [hb]
        exact mapUpdate_lookup_self _ _ _
    · have hec : e.1 ≠ c := by
        intro hh
        apply hndl.1
        rw [hh]
        exact List.mem_map_of_mem _ hmt
      by_cases hto : HEARTBEAT_TIMEOUT < now - e.2.lastPing
      · simp only [List.foldl_cons, tickBody, if_pos hto]
        have hnd2 : ((mapDelete st.players e.1).map Prod.fst).Nodup :=
          hndst.sublist ((mapDelete_sublist _ _).map _)
        rcases ih { st with
            players := mapDelete st.players e.1,
            conns := mapUpdate st.conns e.1
              (fun k => { k with readyState := 3 }) }
          outs c p hndl.2 hnd2 hmt ht with ⟨ha, hb⟩
        refine ⟨ha, ?_⟩
        rw [hb]
        rw [mapUpdate_lookup_ne _ _ _ _ (fun hh => hec hh.symm)]
      · simp only [List.foldl_cons, tickBody, if_neg hto]
        exact ih st (outs ++ sendToOut st e.1 .ping) c p hndl.2 hndst hmt ht

/-- The heartbeat fold emits nothing but `ping` frames. -/
theorem foldl_tickBody_outs_ping (now : Int) (l : List (ConnId × PlayerData))
    (st : ServerState) (outs : List (ConnId × ServerMsg)) :
    ∀ o ∈ (l.foldl (tickBody now) (st, outs)).2, o ∈ outs ∨ o.2 = ServerMsg.ping := by
  induction l generalizing st outs with
  | nil =>
    intro o ho
    exact Or.inl ho
  | cons e t ih =>
    intro o ho
    by_cases hto : HEARTBEAT_TIMEOUT < now - e.2.lastPing
    · simp only [List.foldl_cons, tickBody, if_pos hto] at ho
      exact ih _ _ o ho
    · simp only [List.foldl_cons, tickBody, if_neg hto] at ho
      rcases ih _ _ o ho with hmem | hping
      · rcases List.mem_append.mp hmem with h1 | h2
        · exact Or.inl h1
        · right
          simp only [sendToOut] at h2
          by_cases hrs : readyStateOf st e.1 = 1
          · rw [if_pos hrs] at h2
            rcases List.mem_singleton.mp h2 with rfl
            rfl
          · rw [if_neg hrs] at h2
            cases h2
      · exact Or.inr hping

/-- A `leave` broadcast over a key-deduplicated registry delivers the frame
exactly once to a registered open key and never to a closed one. -/
theorem countOut_broadcast_leave (sb : ServerState) (i : String) (x : ConnId)
    (hnd : (sb.players.map Prod.fst).Nodup) (hx : x ∈ sb.players.map Prod.fst) :
    countOut (broadcastOuts sb (ServerMsg.leave i) none) (x, ServerMsg.leave i)
      = if readyStateOf sb x = 1 then 1 else 0 := by
  have hbc : broadcastOuts sb (ServerMsg.leave i) none
      = sb.players.filterMap (fun e =>
          if readyStateOf sb e.1 = 1 then some (e.1, ServerMsg.leave i) else none) := by
    simp only [broadcastOuts]
    apply List.filterMap_congr
    intro e he
    simp
  rw [hbc]
  exact countOut_filterMap_key sb.players (fun k => readyStateOf sb k) _ x hnd hx

/-- C2: any session whose last pong is older than `HEARTBEAT_TIMEOUT` — other
sessions may be timed out in the same tick — is removed from the registry by
the heartbeat tick (`ws.terminate()` plus delete, no broadcast of its own),
and the `close` event that `terminate` fires delivers exactly one `leave`
frame carrying that session's id to every session that survived the tick and
is open — never zero and never two. -/
theorem C2_heartbeat_eviction (s : ServerState) (c : ConnId) (p : PlayerData)
    (cs : ConnState) (now : Int)
    (hnodup : (s.players.map Prod.fst).Nodup)
    (hmem : mapLookup s.players c = some p)
    (htime : HEARTBEAT_TIMEOUT < now - p.lastPing)
    (hcs : mapLookup s.conns c = some cs) (hpd : cs.pData = some p) :
    ∃ s1 outs1 s2 outs2,
      step s (.tick now) = some (s1, outs1) ∧
      step s1 (.closeEv c) = some (s2, outs2) ∧
      mapLookup s1.players c = none ∧
      mapLookup s2.players c = none ∧
      (∀ o ∈ outs1, o.2 = ServerMsg.ping) ∧
      ∀ e ∈ s.players, ¬ HEARTBEAT_TIMEOUT < now - e.2.lastPing →
        countOut (outs1 ++ outs2) (e.1, ServerMsg.leave p.id)
          = if readyStateOf s e.1 = 1 then 1 else 0 := by
  have hmemc : (c, p) ∈ s.players := mapLookup_mem hmem
  obtain ⟨hev1, hev2⟩ :=
    foldl_tickBody_evicts now s.players s [] c p hnodup hnodup hmemc htime
  have hlkp : mapLookup (stepTick s now).1.players c = none := hev1
  have hlkc : mapLookup (stepTick s now).1.conns c
      = some { cs with readyState := 3 } := by
    show mapLookup (s.players.foldl (tickBody now) (s, [])).1.conns c = _
    rw [hev2, hcs]
    rfl
  have hs1sub : (stepTick s now).1.players.Sublist s.players :=
    (foldl_tickBody_shape now s.players (s, [])).1
  have hs1nd : ((stepTick s now).1.players.map Prod.fst).Nodup :=
    hnodup.sublist (hs1sub.map _)
  refine ⟨(stepTick s now).1, (stepTick s now).2,
    (handleClose (stepTick s now).1 c).1, (handleClose (stepTick s now).1 c).2,
    rfl, rfl, hlkp, ?_, ?_, ?_⟩
  · -- the close handler deletes c again (a no-op here): c stays absent
    simp only [handleClose, hlkc, hpd]
    rw [mapDelete_of_fresh (mapLookup_eq_none hlkp)]
    exact hlkp
  · -- the tick itself broadcasts nothing: every tick output is a ping
    intro o ho
    rcases foldl_tickBody_outs_ping now s.players s [] o ho with h | h
    · cases h
    · exact h
  · intro e he hfresh
    have h2 : mapLookup s.players e.1 = some e.2 :=
      mapLookup_eq_of_mem_nodup hnodup he
    have hxc : e.1 ≠ c := by
      intro hh
      rw [hh, hmem] at h2
      exact hfresh ((Option.some_inj.mp h2) ▸ htime)
    -- a surviving entry keeps its registry slot and its connection state
    obtain ⟨hsp, hsc⟩ :=
      foldl_tickBody_lookup_ne now s.players s [] e.1 (fun e' he' hst' hh => by
        have h1 : mapLookup s.players e'.1 = some e'.2 :=
          mapLookup_eq_of_mem_nodup hnodup he'
        rw [hh, h2] at h1
        exact hfresh ((Option.some_inj.mp h1).symm ▸ hst'))
    have hsp2 : mapLookup (stepTick s now).1.players e.1 = some e.2 := by
      show mapLookup (s.players.foldl (tickBody now) (s, [])).1.players e.1
        = some e.2
      rw [hsp]
      exact h2
    have hmem1 : (e.1, e.2) ∈ (stepTick s now).1.players := mapLookup_mem hsp2
    have hkey1 : e.1 ∈ (stepTick s now).1.players.map Prod.fst :=
      List.mem_map_of_mem _ hmem1
    -- the tick contributes no leave frame
    have hz1 : countOut (stepTick s now).2 (e.1, ServerMsg.leave p.id) = 0 := by
      apply countOut_eq_zero
      intro hmemo
      rcases foldl_tickBody_outs_ping now s.players s [] _ hmemo with h | h
      · cases h
      · cases h
    -- and the close broadcast contributes exactly one for an open survivor
    have hrs : readyStateOf { (stepTick s now).1 with
        conns := mapUpdate (stepTick s now).1.conns c
          (fun k => { k with readyState := 3 }) } e.1 = readyStateOf s e.1 := by
      apply readyStateOf_eq_of_lookup
      show mapLookup (mapUpdate (stepTick s now).1.conns c _) e.1 = _
      rw [mapUpdate_lookup_ne _ _ _ _ hxc]
      exact hsc
    rw [countOut_append, hz1, Nat.zero_add]
    simp only [handleClose, hlkc, hpd]
    rw [countOut_broadcast_leave { (stepTick s now).1 with
        conns := mapUpdate (stepTick s now).1.conns c
          (fun k => { k with readyState := 3 }) } p.id e.1 hs1nd hkey1, hrs]

/-- A third session "D", already stale at time 40000 (last pong 5000). -/
def pD : PlayerData :=
  { id := "did", name := "D", x := 0, z := 0, ry := 0, moving := false,
    equipment := [], stats := initialStats, lastPing := 5000 }

/-- A state with sessions A, B, D joined, of which A and D are both stale at
time 40000 while B is not. -/
def stateABD : ServerState :=
  { players := [(0, pA), (1, pB), (2, pD)],
    conns := [(0, { pData := some pA, readyState := 1 }),
              (1, { pData := some pB, readyState := 1 }),
              (2, { pData := some pD, readyState := 1 })],
    idStream := fun _ => "cid", idCount := 3 }

/-- Witness for C2: at time 40000, A (last pong 0) and D (last pong 5000)
have both timed out while B (last pong 20000) has not; A's eviction plus the
terminate-induced close still deliver exactly one `leave` with A's id to B. -/
theorem C2_heartbeat_eviction_witness :
    ∃ s1 outs1 s2 outs2,
      step stateABD (.tick 40000) = some (s1, outs1) ∧
      step s1 (.closeEv 0) = some (s2, outs2) ∧
      mapLookup s1.players 0 = none ∧
      mapLookup s2.players 0 = none ∧
      (∀ o ∈ outs1, o.2 = ServerMsg.ping) ∧
      ∀ e ∈ stateABD.players, ¬ HEARTBEAT_TIMEOUT < 40000 - e.2.lastPing →
        countOut (outs1 ++ outs2) (e.1, ServerMsg.leave pA.id)
          = if readyStateOf stateABD e.1 = 1 then 1 else 0 :=
  C2_heartbeat_eviction stateABD 0 pA { pData := some pA, readyState := 1 }
    40000 (by decide) (by rfl) (by decide) (by rfl) (by rfl)

/-- Witness for C9: joining with no `name` field at all yields "Player". -/
theorem C9_missing_name_defaults_witness :
    ∃ s1 outs,
      step { players := [], conns := [(7, { pData := none, readyState := 1 })],
             idStream := fun _ => "i", idCount := 0 : ServerState }
        (.message 7 { type := "join", name := none } 0) = some (s1, outs) ∧
      ∃ pd, mapLookup s1.players 7 = some pd ∧ pd.name = "Player" :=
  C9_missing_name_defaults _ 7 _ 0 none (by rfl) (by rfl)
    (fun v h => by cases h)

end AsterianServer
